import Mathlib

/-!
# CVE tracker: synchronisation pipeline and read-query filter

A shallow embedding of `server.js`:

* the upstream feed items, with one optional field per property the code reads;
* the normalisation of one item into the values passed to `CVE.upsert` (lines 57-72);
* the `CVE` table (lines 16-34) as a list of rows with upsert by `cve_id`;
* the pagination loop of `fetchAndStoreCVEData` (lines 37-81), with the feed and the
  store write as parameters and explicit logs of the fetch and upsert calls;
* the where-clause of `GET /cves` (lines 84-110) and its evaluation on the rows;
* the two triggers of a run (lines 113 and 120).

Finite JavaScript numbers are modelled by their mathematical value in `ℚ`.
-/

set_option autoImplicit false

namespace CveTracker

/-! ## Upstream items -/

/-- One entry of `cve.descriptions`. -/
structure RawDescription where
  value : Option String
deriving DecidableEq, Repr

/-- The object `cvssData` of a metric entry. -/
structure CvssData where
  baseScore : Option ℚ
deriving DecidableEq, Repr

/-- One entry of `metrics.cvssMetricV3`. -/
structure CvssMetric where
  cvssData : Option CvssData
deriving DecidableEq, Repr

/-- The object `cve.metrics`; `cvssMetricV3` is the only key the code reads. -/
structure Metrics where
  cvssMetricV3 : Option (List CvssMetric)
deriving DecidableEq, Repr

/-- The object `item.cve`. -/
structure CveData where
  id : Option String
  descriptions : Option (List RawDescription)
  metrics : Option Metrics
  lastModified : Option String
deriving DecidableEq, Repr

/-- One entry of `data.vulnerabilities`. -/
structure RawItem where
  cve : Option CveData
deriving DecidableEq, Repr

/-! ## Rows of the `CVE` table -/

/-- The four declared columns of the model `CVE` (lines 16-34). `cve_id` is optional here
because it is also the type of the argument of `CVE.upsert`, which line 68 fills with
`cveData.id` whether or not it is defined. -/
structure Row where
  cve_id : Option String
  description : String
  score : Option ℚ
  last_modified : Option String
deriving DecidableEq, Repr

/-- The table, in insertion order. -/
abbrev Store := List Row

/-! ## Normalisation (lines 60-64) -/

/-- JavaScript `v || d` for a string-valued `v`: `undefined` and `""` are falsy. -/
def orString (v : Option String) (d : String) : String :=
  match v with
  | none => d
  | some s => if s = "" then d else s

/-- JavaScript `v || null` for a number-valued `v`: `undefined` and `0` are falsy. -/
def orNull (v : Option ℚ) : Option ℚ :=
  match v with
  | none => none
  | some x => if x = 0 then none else some x

/-- The expression `cveData.descriptions?.[0]?.value` of line 61. -/
def firstDescriptionValue (cveData : CveData) : Option String :=
  (cveData.descriptions.bind List.head?).bind RawDescription.value

/-- The expression `cveData.metrics?.cvssMetricV3?.[0]?.cvssData?.baseScore` of line 63. -/
def firstBaseScore (cveData : CveData) : Option ℚ :=
  (((cveData.metrics.bind Metrics.cvssMetricV3).bind List.head?).bind
    CvssMetric.cvssData).bind CvssData.baseScore

/-- The values object built on lines 60-64 and passed to `CVE.upsert` on lines 67-72. -/
def normalize (cveData : CveData) : Row :=
  { cve_id := cveData.id
    description := orString (firstDescriptionValue cveData) ""
    score := orNull (firstBaseScore cveData)
    last_modified := some (orString cveData.lastModified "") }

/-! ## The store write -/

/-- Insert-or-replace keyed by `cve_id`: the first row with the key of `values` is replaced
by `values` in place, and when there is none `values` is appended. -/
def upsertRow (values : Row) : Store → Store
  | [] => [values]
  | r :: rest => if r.cve_id = values.cve_id then values :: rest else r :: upsertRow values rest

/-- The first row stored under a key. -/
def findById (id : String) (store : Store) : Option Row :=
  store.find? (fun r => decide (r.cve_id = some id))

/-- `CVE.upsert(values)` on a healthy database. The column `cve_id` is declared
`allowNull: false` (line 20), so a values object without `cve_id` is rejected (`none`: the
promise rejects); every other values object built by `normalize` satisfies the schema and is
written with `upsertRow`. -/
def CVE.upsert (store : Store) (values : Row) : Option Store :=
  match values.cve_id with
  | none => none
  | some _ => some (upsertRow values store)

/-! ## The run (lines 37-81) -/

/-- The body of an HTTP response of the feed. -/
structure ResponseData where
  vulnerabilities : Option (List RawItem)
deriving DecidableEq, Repr

/-- What `await axios.get(apiUrl, ...)` does: the promise rejects (network failure, or a
status axios does not accept), or it resolves to a response with a status and a body. -/
inductive FetchResult where
  | rejected
  | response (status : Nat) (data : Option ResponseData)
deriving DecidableEq, Repr

/-- The page size, line 40. -/
def resultsPerPage : Nat := 100

/-- What a run has done so far: the table, the `startIndex` of every `axios.get` call in call
order, and the argument of every `CVE.upsert` call in call order. -/
structure SyncState where
  store : Store
  fetches : List Nat
  upserts : List Row
deriving DecidableEq, Repr

/-- How the `for` loop over one page ended: it ran through, or an `await CVE.upsert`
rejected and the exception left the loop. -/
inductive PageEnd where
  | completed
  | threw
deriving DecidableEq, Repr

/-- The `for (const item of vulnerabilities)` loop, lines 56-73. `upsert` is the store write:
`none` stands for a rejected `CVE.upsert`. -/
def upsertItems (upsert : Store → Row → Option Store) :
    List RawItem → SyncState → PageEnd × SyncState
  | [], st => (PageEnd.completed, st)
  | item :: rest, st =>
    match item.cve with
    | none => upsertItems upsert rest st
    | some cveData =>
      let values := normalize cveData
      match upsert st.store values with
      | none => (PageEnd.threw, { st with upserts := st.upserts ++ [values] })
      | some store' =>
        upsertItems upsert rest { st with store := store', upserts := st.upserts ++ [values] }

/-- How a run ended: `break` on a short page (line 75), `break` on a status other than 200
(line 50), the `catch` of line 78, or the model ran out of fuel with the loop still going. -/
inductive RunEnd where
  | exhausted
  | badStatus
  | caught
  | outOfFuel
deriving DecidableEq, Repr

/-- The `while (true)` loop of lines 43-77 inside the `try` of line 42. `feed startIndex` is
the outcome of the `axios.get` call made with that `startIndex`; `fuel` bounds the number of
iterations. -/
def syncLoop (feed : Nat → FetchResult) (upsert : Store → Row → Option Store) :
    Nat → Nat → SyncState → RunEnd × SyncState
  | 0, _, st => (RunEnd.outOfFuel, st)
  | fuel + 1, startIndex, st =>
    let st1 : SyncState := { st with fetches := st.fetches ++ [startIndex] }
    match feed startIndex with
    | FetchResult.rejected => (RunEnd.caught, st1)
    | FetchResult.response status data =>
      if status ≠ 200 then (RunEnd.badStatus, st1)
      else
        match data with
        | none => (RunEnd.caught, st1)
        | some d =>
          let vulnerabilities := d.vulnerabilities.getD []
          match upsertItems upsert vulnerabilities st1 with
          | (PageEnd.threw, st2) => (RunEnd.caught, st2)
          | (PageEnd.completed, st2) =>
            if vulnerabilities.length < resultsPerPage then (RunEnd.exhausted, st2)
            else syncLoop feed upsert fuel (startIndex + resultsPerPage) st2

/-- One call of `fetchAndStoreCVEData` on the table `store`. -/
def fetchAndStoreCVEData (feed : Nat → FetchResult) (upsert : Store → Row → Option Store)
    (fuel : Nat) (store : Store) : RunEnd × SyncState :=
  syncLoop feed upsert fuel 0 { store := store, fetches := [], upserts := [] }

/-- The page a fetch delivers to the `for` loop: the `vulnerabilities` of a status-200
response with a body, `[]` when the body has no such list (line 54). -/
def FetchResult.page : FetchResult → Option (List RawItem)
  | FetchResult.rejected => none
  | FetchResult.response status data =>
    if status ≠ 200 then none
    else
      match data with
      | none => none
      | some d => some (d.vulnerabilities.getD [])

/-! ## The read query (lines 84-110) -/

/-- The query string of a `GET /cves` request: each parameter is absent or a string. -/
structure Query where
  cve_id : Option String
  year : Option String
  score : Option String
  days : Option String
deriving DecidableEq, Repr

/-- The test `if (p)` on a query parameter: the value when it is a non-empty string. -/
def truthy (p : Option String) : Option String :=
  match p with
  | none => none
  | some s => if s = "" then none else some s

/-- A JavaScript number: `NaN`, an infinity, or a finite value (the sign of zero is not
kept). -/
inductive JSNum where
  | nan
  | infinity (negative : Bool)
  | finite (value : ℚ)
deriving DecidableEq, Repr

/-- White space that `parseFloat` and `parseInt` skip at the start of the string. -/
def isStrWhiteSpace (c : Char) : Bool :=
  let n := c.toNat
  n = 9 || n = 10 || n = 11 || n = 12 || n = 13 || n = 32 || n = 160 || n = 5760 ||
    (8192 ≤ n && n ≤ 8202) || n = 8232 || n = 8233 || n = 8239 || n = 8287 || n = 12288 ||
    n = 65279

/-- The number written by a list of decimal digits. -/
def digitsValue (ds : List Char) : Nat :=
  ds.foldl (fun acc c => 10 * acc + (c.toNat - 48)) 0

/-- An optional sign at the head of the input: whether it is a minus, and the rest. -/
def takeSign (cs : List Char) : Bool × List Char :=
  match cs with
  | c :: rest => if c = '-' then (true, rest) else if c = '+' then (false, rest) else (false, cs)
  | [] => (false, cs)

/-- The exponent written at the head of the input (`e` or `E`, an optional sign, digits),
`0` when there is none. -/
def takeExponent (cs : List Char) : Int :=
  match cs with
  | c :: rest =>
    if c = 'e' || c = 'E' then
      let (neg, r) := takeSign rest
      let ds := r.takeWhile Char.isDigit
      if ds = [] then 0 else if neg then -(digitsValue ds : Int) else (digitsValue ds : Int)
    else 0
  | [] => 0

/-- The nearest integer to a rational, a tie going to the even one. -/
def roundHalfEven (q : ℚ) : Int :=
  let f : Int := ⌊q⌋
  let r : ℚ := q - f
  if r < 1 / 2 then f
  else if 1 / 2 < r then f + 1
  else if f % 2 = 0 then f else f + 1

/-- The Number value for a mathematical value: the nearest IEEE 754 double, ties to even.
The value is rounded to a multiple of the spacing of doubles at its magnitude
(`2 ^ (e - 52)` for `2 ^ e ≤ |q| < 2 ^ (e + 1)`, never below `2 ^ (-1074)`), and a result of
magnitude `2 ^ 1024` or more is an infinity. -/
def toDouble (q : ℚ) : JSNum :=
  if q = 0 then JSNum.finite 0
  else
    let a : ℚ := |q|
    let e : Int := max (Int.log 2 a) (-1022)
    let ulp : ℚ := (2 : ℚ) ^ (e - 52)
    let v : ℚ := (roundHalfEven (a / ulp) : ℚ) * ulp
    if (2 : ℚ) ^ (1024 : Nat) ≤ v then JSNum.infinity (decide (q < 0))
    else JSNum.finite (if q < 0 then -v else v)

/-- The built-in `parseFloat` on a string: leading white space is skipped and the longest
prefix that is a decimal literal is read (sign, `Infinity`, digits, fraction, exponent);
`NaN` when there is none, otherwise the value of the literal rounded to a double. -/
def parseFloat (s : String) : JSNum :=
  let (neg, cs) := takeSign (s.toList.dropWhile isStrWhiteSpace)
  if "Infinity".toList.isPrefixOf cs then JSNum.infinity neg
  else
    let ip := cs.takeWhile Char.isDigit
    let r1 := cs.dropWhile Char.isDigit
    let fp := match r1 with
      | c :: r => if c = '.' then r.takeWhile Char.isDigit else []
      | [] => []
    let r2 := match r1 with
      | c :: r => if c = '.' then r.dropWhile Char.isDigit else r1
      | [] => r1
    if ip = [] ∧ fp = [] then JSNum.nan
    else
      let m : ℚ := (digitsValue ip : ℚ) + (digitsValue fp : ℚ) / (10 : ℚ) ^ fp.length
      let v : ℚ := m * (10 : ℚ) ^ takeExponent r2
      toDouble (if neg then -v else v)

/-- The value of a digit in a radix, when it is one. -/
def digitInRadix (radix : Nat) (c : Char) : Option Nat :=
  let n := c.toNat
  let v := if 48 ≤ n ∧ n ≤ 57 then n - 48
    else if 97 ≤ n ∧ n ≤ 122 then n - 87
    else if 65 ≤ n ∧ n ≤ 90 then n - 55
    else radix
  if v < radix then some v else none

/-- The built-in `parseInt` on a string, no radix given: leading white space is skipped, then
a sign, then `0x` or `0X` selects radix 16, and the longest prefix of digits is read; `none`
is `NaN`. The result is the integer written; its conversion to a Number is left to the
arithmetic that uses it. -/
def parseInt (s : String) : Option Int :=
  let (neg, cs) := takeSign (s.toList.dropWhile isStrWhiteSpace)
  let hex := "0x".toList.isPrefixOf cs || "0X".toList.isPrefixOf cs
  let radix := if hex then 16 else 10
  let body := if hex then cs.drop 2 else cs
  let ds := body.takeWhile (fun c => (digitInRadix radix c).isSome)
  if ds = [] then none
  else
    let v : Nat := ds.foldl (fun acc c => radix * acc + (digitInRadix radix c).getD 0) 0
    some (if neg then -(v : Int) else (v : Int))

/-- The constraint a where-clause puts on `last_modified`: `Op.like` with a pattern, or
`Op.gte` with a bound. -/
inductive LastModifiedCond where
  | like (pattern : String)
  | gte (bound : String)
deriving DecidableEq, Repr

/-- The object `whereClause`: one slot per key the handler may assign. -/
structure WhereClause where
  cve_id : Option String
  last_modified : Option LastModifiedCond
  score : Option JSNum
deriving DecidableEq, Repr

/-- Lines 85-101. `isoDateDaysAgo n` is the runtime's clock and date arithmetic on the
integer `n` that `parseInt` read: the text `date.toISOString().split("T")[0]` after
`date.setDate(date.getDate() - n)`, or `none` when `toISOString` throws on an out-of-range
date. The result is `none` when an exception leaves the handler before the `try` of line
103: a `days` that `parseInt` turns into `NaN` makes the date invalid, and `toISOString`
throws on it. -/
def whereClause (isoDateDaysAgo : Int → Option String) (q : Query) : Option WhereClause :=
  let w0 : WhereClause := { cve_id := none, last_modified := none, score := none }
  let w1 := match truthy q.cve_id with
    | some v => { w0 with cve_id := some v }
    | none => w0
  let w2 := match truthy q.year with
    | some y => { w1 with last_modified := some (LastModifiedCond.like (y ++ "-%")) }
    | none => w1
  let w3 := match truthy q.score with
    | some sc => { w2 with score := some (parseFloat sc) }
    | none => w2
  match truthy q.days with
  | some d =>
    match parseInt d with
    | none => none
    | some n =>
      match isoDateDaysAgo n with
      | none => none
      | some bound => some { w3 with last_modified := some (LastModifiedCond.gte bound) }
  | none => some w3

/-- ASCII lower case, the case folding of SQLite's `LIKE`. -/
def asciiLower (c : Char) : Nat :=
  if 65 ≤ c.toNat ∧ c.toNat ≤ 90 then c.toNat + 32 else c.toNat

/-- SQLite's `LIKE` without escape character: `%` stands for any run of characters, `_` for
any one character, every other character for itself up to ASCII case. -/
def sqlLike : List Char → List Char → Bool
  | [], s => s.isEmpty
  | p :: ps, s =>
    if p = '%' then s.tails.any (sqlLike ps)
    else
      match s with
      | [] => false
      | c :: cs => (p = '_' || asciiLower p = asciiLower c) && sqlLike ps cs

/-- The order of two texts under SQLite's default collation: byte by byte, which on UTF-8 is
code point by code point, a proper prefix first. -/
def textLe : List Char → List Char → Bool
  | [], _ => true
  | _ :: _, [] => false
  | a :: as, b :: bs => a.toNat < b.toNat || (a.toNat = b.toNat && textLe as bs)

/-- The comparison `score >= bound` of the query on a stored score. A `NULL` score satisfies
no comparison. A bound that is not a finite number (`NaN`, `Infinity`, `-Infinity`) reaches
the database as a text, and no stored number is at least a text: no row is selected. -/
def scoreGte (score : Option ℚ) (bound : JSNum) : Bool :=
  match score, bound with
  | some x, JSNum.finite b => decide (b ≤ x)
  | _, _ => false

/-- The condition on `last_modified` evaluated on a stored value; `NULL` satisfies none. -/
def LastModifiedCond.holds (c : LastModifiedCond) (lastModified : Option String) : Bool :=
  match lastModified with
  | none => false
  | some s =>
    match c with
    | LastModifiedCond.like pattern => sqlLike pattern.toList s.toList
    | LastModifiedCond.gte bound => textLe bound.toList s.toList

/-- Whether a row satisfies every constraint of a where-clause. -/
def WhereClause.selects (w : WhereClause) (r : Row) : Bool :=
  (match w.cve_id with
    | some v => decide (r.cve_id = some v)
    | none => true) &&
  (match w.last_modified with
    | some c => c.holds r.last_modified
    | none => true) &&
  (match w.score with
    | some b => scoreGte r.score b
    | none => true)

/-- `CVE.findAll({ where: whereClause })` on a healthy database: the rows the clause
selects, in insertion order. -/
def CVE.findAll (store : Store) (w : WhereClause) : List Row :=
  store.filter w.selects

/-- What the handler does with the request: `res.json(cves)`, the status-500 reply of the
`catch`, or nothing of its own because an exception left it before the `try` of line 103
(what the framework does with that exception is outside the handler). -/
inductive Reply where
  | json (cves : List Row)
  | internalServerError
  | unhandled
deriving DecidableEq, Repr

/-- The HTTP status of the reply the handler sends, when it sends one. -/
def Reply.status : Reply → Option Nat
  | Reply.json _ => some 200
  | Reply.internalServerError => some 500
  | Reply.unhandled => none

/-- The handler of `GET /cves`. `findAll` is the store read: `none` stands for a rejected
`CVE.findAll`. -/
def getCves (isoDateDaysAgo : Int → Option String)
    (findAll : WhereClause → Option (List Row)) (q : Query) : Reply :=
  match whereClause isoDateDaysAgo q with
  | none => Reply.unhandled
  | some w =>
    match findAll w with
    | some cves => Reply.json cves
    | none => Reply.internalServerError

/-! ## The triggers of a run (lines 113 and 120) -/

/-- What can happen to the runs: `startServer` calls `fetchAndStoreCVEData` once the
database is synchronised, the cron schedule calls it, a run in progress writes to the table,
a run in progress returns. -/
inductive Event where
  | startup
  | cronTick
  | runUpserts (run : Nat)
  | runEnds (run : Nat)
deriving DecidableEq, Repr

/-- The runs of the process: how many calls of `fetchAndStoreCVEData` were made, which of
them have not returned yet (numbered in call order), and which run made each table write. -/
structure Runs where
  started : Nat
  active : List Nat
  writes : List Nat
deriving DecidableEq, Repr

/-- Whether the event is one of the two calls of `fetchAndStoreCVEData`. -/
def Event.isTrigger : Event → Bool
  | Event.startup => true
  | Event.cronTick => true
  | _ => false

/-- One event. Both triggers call `fetchAndStoreCVEData` directly (lines 113, 120) and the
function begins its loop without looking at any other run (lines 37-43). -/
def Runs.step (s : Runs) : Event → Runs
  | Event.startup => { s with started := s.started + 1, active := s.active ++ [s.started] }
  | Event.cronTick => { s with started := s.started + 1, active := s.active ++ [s.started] }
  | Event.runUpserts run =>
    if run ∈ s.active then { s with writes := s.writes ++ [run] } else s
  | Event.runEnds run => { s with active := s.active.erase run }

/-- The process before any trigger. -/
def Runs.initial : Runs := { started := 0, active := [], writes := [] }

/-- A sequence of events from a state. -/
def Runs.exec (s : Runs) (events : List Event) : Runs :=
  events.foldl Runs.step s

/-! ## Auxiliary definitions for the statements -/

/-- A feed response with status 200 and the given `vulnerabilities`. -/
def okResponse (items : List RawItem) : FetchResult :=
  FetchResult.response 200 (some { vulnerabilities := some items })

/-- A `cve` object with the given id and no other property. -/
def cveOf (id : String) : CveData :=
  { id := some id, descriptions := none, metrics := none, lastModified := none }

/-- An item whose `cve` object has the given id and no other property. -/
def itemOf (id : String) : RawItem :=
  { cve := some (cveOf id) }

/-- An item whose `cve` object has a description and no id. -/
def itemWithoutId : RawItem :=
  { cve := some { id := none, descriptions := some [{ value := some "no identifier" }],
                  metrics := none, lastModified := none } }

/-- A `cve` object whose first `cvssMetricV3` entry has the given base score. -/
def cveWithScore (id : String) (baseScore : ℚ) : CveData :=
  { id := some id, descriptions := none,
    metrics := some { cvssMetricV3 := some [{ cvssData := some { baseScore := some baseScore } }] },
    lastModified := none }

/-- The rows the `for` loop writes over a page on a healthy database: the normalised items
that have a `cve` object, up to the first one without an id. -/
def writtenRows : List RawItem → List Row
  | [] => []
  | item :: rest =>
    match item.cve with
    | none => writtenRows rest
    | some cveData =>
      match cveData.id with
      | none => []
      | some _ => normalize cveData :: writtenRows rest

/-- The table after writing rows one after the other. -/
def upsertRows (rows : List Row) (store : Store) : Store :=
  rows.foldl (fun s r => upsertRow r s) store

/-- No `CVE.upsert` call the loop makes over these items is rejected, whatever the table
holds at that point. -/
def UpsertsSucceed (upsert : Store → Row → Option Store) (items : List RawItem) : Prop :=
  ∀ item ∈ items, ∀ c, item.cve = some c → ∀ s, (upsert s (normalize c)).isSome = true

/-- The table after the `for` loop has run over each of the pages in order. -/
def applyPages (upsert : Store → Row → Option Store) (pages : List (List RawItem))
    (store : Store) : Store :=
  pages.foldl
    (fun s page => (upsertItems upsert page { store := s, fetches := [], upserts := [] }).2.store)
    store

/-- The pages the feed delivers for the first `n` values of `startIndex`, from `start` on. -/
def feedPages (feed : Nat → FetchResult) (start n : Nat) : List (List RawItem) :=
  (List.range n).map (fun i => ((feed (start + resultsPerPage * i)).page).getD [])

/-- A store write on a database that rejects every write of the row with the given id and
is healthy otherwise. -/
def faultyUpsert (badId : String) (store : Store) (values : Row) : Option Store :=
  if values.cve_id = some badId then none else CVE.upsert store values

/-- A feed with a full first page that starts with `"CVE-BAD"`, then a page of two items. -/
def feedBadFirst (startIndex : Nat) : FetchResult :=
  if startIndex = 0 then okResponse (itemOf "CVE-BAD" :: List.replicate 99 (itemOf "CVE-1"))
  else okResponse [itemOf "CVE-2", itemOf "CVE-3"]

/-- A feed with a full first page that starts with `"CVE-BAD"`, whose second fetch is
rejected. -/
def feedBadThenDown (startIndex : Nat) : FetchResult :=
  if startIndex = 0 then okResponse (itemOf "CVE-BAD" :: List.replicate 99 (itemOf "CVE-1"))
  else FetchResult.rejected

/-- The feed of two pages of 100 items and one of 40. -/
def feedScenarioB (startIndex : Nat) : FetchResult :=
  if startIndex < 200 then okResponse (List.replicate 100 (itemOf "CVE-1"))
  else okResponse (List.replicate 40 (itemOf "CVE-2"))

/-- A feed of one page of 100 items whose second fetch is rejected. -/
def feedOneThenDown (startIndex : Nat) : FetchResult :=
  if startIndex = 0 then okResponse (List.replicate 100 (itemOf "CVE-1"))
  else FetchResult.rejected

/-! ### The filters of a request, one by one -/

/-- The `cve_id` filter alone: when given, the row's id equals it. -/
def Query.idMatches (q : Query) (r : Row) : Bool :=
  match truthy q.cve_id with
  | some v => decide (r.cve_id = some v)
  | none => true

/-- The `year` filter alone: when given, `last_modified` starts with the year and a dash. -/
def Query.yearMatches (q : Query) (r : Row) : Bool :=
  match truthy q.year with
  | some y =>
    match r.last_modified with
    | some s => (y ++ "-").toList.isPrefixOf s.toList
    | none => false
  | none => true

/-- The `score` filter alone: when given, the row's score is at least the parsed value. -/
def Query.scoreMatches (q : Query) (r : Row) : Bool :=
  match truthy q.score with
  | some sc => scoreGte r.score (parseFloat sc)
  | none => true

/-- The `days` filter alone: when given, `last_modified` is at least the ISO date that many
days ago, as text. -/
def Query.daysMatches (isoDateDaysAgo : Int → Option String) (q : Query) (r : Row) : Bool :=
  match truthy q.days with
  | some d =>
    match (parseInt d).bind isoDateDaysAgo, r.last_modified with
    | some bound, some s => textLe bound.toList s.toList
    | _, _ => false
  | none => true

/-- The single `last_modified` condition the handler ends with: that of `days` when `days`
is given, otherwise that of `year`. -/
def Query.lastModifiedMatches (isoDateDaysAgo : Int → Option String) (q : Query) (r : Row) :
    Bool :=
  match truthy q.days with
  | some _ => q.daysMatches isoDateDaysAgo r
  | none => q.yearMatches r

/-- A year written with decimal digits only. -/
def Query.yearIsDigits (q : Query) : Prop :=
  ∀ y, truthy q.year = some y → ∀ c ∈ y.toList, 48 ≤ c.toNat ∧ c.toNat ≤ 57

/-- A request with no parameter. -/
def Query.empty : Query := { cve_id := none, year := none, score := none, days := none }

/-- A row with the given id, score and `last_modified`. -/
def rowOf (id : String) (score : Option ℚ) (lastModified : String) : Row :=
  { cve_id := some id, description := "", score := score, last_modified := some lastModified }

/-- A clock on which every look-back gives the first of May 2024. -/
def clockMay2024 (_ : Int) : Option String := some "2024-05-01"

/-- A store read on a healthy database holding the given table. -/
def healthyFindAll (store : Store) (w : WhereClause) : Option (List Row) :=
  some (CVE.findAll store w)

/-- All four filters at once: the intersection of the rows each filter matches. -/
def Query.allMatch (isoDateDaysAgo : Int → Option String) (q : Query) (r : Row) : Bool :=
  q.idMatches r && q.yearMatches r && q.scoreMatches r && q.daysMatches isoDateDaysAgo r

/-- The request `GET /cves?year=2023&days=30`. -/
def queryYearAndDays : Query :=
  { cve_id := none, year := some "2023", score := none, days := some "30" }

/-- The request `GET /cves?year=2024`. -/
def queryYear2024 : Query :=
  { cve_id := none, year := some "2024", score := none, days := none }

/-- The request `GET /cves?score=abc`. -/
def queryScoreAbc : Query :=
  { cve_id := none, year := none, score := some "abc", days := none }

end CveTracker

/-! # Theorems -/

namespace CveTracker

/-! ## Normalisation -/

/-- C7: for every raw item that has an id, normalisation produces a values object (it is a
total function, nothing is raised) carrying that id, and: without descriptions (absent or
an empty list) the description is the empty string; without any severity metric (no
`metrics`, or no or an empty `cvssMetricV3` list) the score is null; without `lastModified`
the `last_modified` is the empty string. -/
theorem normalize_defaults (c : CveData) (id : String) (hid : c.id = some id) :
    (normalize c).cve_id = some id ∧
    ((c.descriptions = none ∨ c.descriptions = some []) → (normalize c).description = "") ∧
    ((c.metrics = none ∨ ∃ m, c.metrics = some m ∧
        (m.cvssMetricV3 = none ∨ m.cvssMetricV3 = some [])) → (normalize c).score = none) ∧
    (c.lastModified = none → (normalize c).last_modified = some "") := by
  refine ⟨hid, ?_, ?_, ?_⟩
  · intro h
    rcases h with h | h <;> simp [normalize, firstDescriptionValue, orString, h]
  · intro h
    rcases h with h | ⟨m, hm, h | h⟩ <;>
      simp [normalize, firstBaseScore, orNull, *]
  · intro h
    simp [normalize, orString, h]

/-- The defaults of C7 at an item that has only an id. -/
theorem normalize_defaults_witness :
    (normalize (cveOf "CVE-1")).cve_id = some "CVE-1" ∧
    (normalize (cveOf "CVE-1")).description = "" ∧
    (normalize (cveOf "CVE-1")).score = none ∧
    (normalize (cveOf "CVE-1")).last_modified = some "" :=
  have h := normalize_defaults (cveOf "CVE-1") "CVE-1" rfl
  ⟨h.1, h.2.1 (Or.inl rfl), h.2.2.1 (Or.inl rfl), h.2.2.2 rfl⟩

/-- C8: an item whose first `cvssMetricV3` entry has base score 0 is normalised to a null
score, although a base score is present; a base score of 7 is kept. -/
theorem normalize_zero_baseScore :
    firstBaseScore (cveWithScore "CVE-1" 0) = some 0 ∧
    (normalize (cveWithScore "CVE-1" 0)).score = none ∧
    (normalize (cveWithScore "CVE-1" 7)).score = some 7 := by
  decide

/-- C4: on the page `[itemWithoutId, itemOf "CVE-2"]` the loop calls `CVE.upsert` for the
item without id, with `cve_id` undefined; the call is rejected, the exception leaves the
loop, and the item after it is never written: the run ends in the `catch` with the table
unchanged. With an item that has no `cve` object in its place, the run skips it and writes
the item after it. -/
theorem missing_id_is_upserted_and_ends_run :
    fetchAndStoreCVEData (fun _ => okResponse [itemWithoutId, itemOf "CVE-2"]) CVE.upsert 5 [] =
      (RunEnd.caught,
        { store := [], fetches := [0],
          upserts := [{ cve_id := none, description := "no identifier", score := none,
                        last_modified := some "" }] }) ∧
    fetchAndStoreCVEData (fun _ => okResponse [{ cve := none }, itemOf "CVE-2"]) CVE.upsert 5 [] =
      (RunEnd.exhausted,
        { store := [normalize (cveOf "CVE-2")], fetches := [0],
          upserts := [normalize (cveOf "CVE-2")] }) := by
  decide

end CveTracker

namespace CveTracker

/-! ## The table write -/

theorem upsertRow_same_key (r r' : Row) (s : Store) (h : r.cve_id = r'.cve_id) :
    upsertRow r' (upsertRow r s) = upsertRow r' s := by
  induction s with
  | nil => simp [upsertRow, h]
  | cons x xs ih =>
    by_cases hx : x.cve_id = r.cve_id
    · have hx' : x.cve_id = r'.cve_id := hx.trans h
      simp [upsertRow, hx, hx', h]
    · have hx' : ¬ x.cve_id = r'.cve_id := fun e => hx (e.trans h.symm)
      simp [upsertRow, hx, hx', ih]

theorem keys_upsertRow (r : Row) (s : Store) :
    (upsertRow r s).map Row.cve_id =
      if r.cve_id ∈ s.map Row.cve_id then s.map Row.cve_id
      else s.map Row.cve_id ++ [r.cve_id] := by
  induction s with
  | nil => simp [upsertRow]
  | cons x xs ih =>
    by_cases hx : x.cve_id = r.cve_id
    · simp [upsertRow, hx]
    · have hx' : ¬ r.cve_id = x.cve_id := fun e => hx e.symm
      simp only [upsertRow, hx, if_false, List.map_cons, ih, List.mem_cons, hx', false_or]
      split <;> simp

theorem mem_keys_upsertRow (r : Row) (s : Store) (k : Option String)
    (h : k ∈ s.map Row.cve_id) : k ∈ (upsertRow r s).map Row.cve_id := by
  rw [keys_upsertRow]
  split
  · exact h
  · exact List.mem_append_left _ h

theorem self_mem_keys_upsertRow (r : Row) (s : Store) :
    r.cve_id ∈ (upsertRow r s).map Row.cve_id := by
  rw [keys_upsertRow]
  split
  · assumption
  · simp

theorem upsertRow_comm (r r' : Row) (s : Store) (hne : r.cve_id ≠ r'.cve_id)
    (hin : r.cve_id ∈ s.map Row.cve_id) :
    upsertRow r (upsertRow r' s) = upsertRow r' (upsertRow r s) := by
  induction s with
  | nil => simp at hin
  | cons x xs ih =>
    by_cases hx : x.cve_id = r.cve_id
    · have hx' : ¬ x.cve_id = r'.cve_id := fun e => hne (hx.symm.trans e)
      have hrr : ¬ r.cve_id = r'.cve_id := hne
      simp [upsertRow, hx, hx', hrr]
    · have hin' : r.cve_id ∈ xs.map Row.cve_id := by
        simp only [List.map_cons, List.mem_cons] at hin
        rcases hin with e | e
        · exact absurd e.symm hx
        · exact e
      by_cases hx' : x.cve_id = r'.cve_id
      · have hrr : ¬ r'.cve_id = r.cve_id := fun e => hne e.symm
        simp [upsertRow, hx, hx', hrr]
      · simp [upsertRow, hx, hx', ih hin']

theorem upsertRows_cons (r : Row) (rows : List Row) (s : Store) :
    upsertRows (r :: rows) s = upsertRows rows (upsertRow r s) := rfl

theorem upsertRows_append (rows rows' : List Row) (s : Store) :
    upsertRows (rows ++ rows') s = upsertRows rows' (upsertRows rows s) := by
  simp [upsertRows, List.foldl_append]

theorem mem_keys_upsertRows (rows : List Row) (s : Store) (k : Option String)
    (h : k ∈ s.map Row.cve_id) : k ∈ (upsertRows rows s).map Row.cve_id := by
  induction rows generalizing s with
  | nil => exact h
  | cons r rows ih => exact ih _ (mem_keys_upsertRow r s k h)

theorem keys_subset_upsertRows (rows : List Row) (s : Store) :
    ∀ r ∈ rows, r.cve_id ∈ (upsertRows rows s).map Row.cve_id := by
  induction rows generalizing s with
  | nil => simp
  | cons x rows ih =>
    intro r hr
    rcases List.mem_cons.mp hr with e | e
    · subst e
      exact mem_keys_upsertRows rows _ _ (self_mem_keys_upsertRow r s)
    · exact ih _ r e

/-- Writing `r`, then rows whose keys are all stored already, then `r` again, gives the same
table as leaving the first write out. -/
theorem upsertRow_absorb (r : Row) (rows : List Row) (s : Store)
    (h : ∀ x ∈ rows, x.cve_id ∈ s.map Row.cve_id) :
    upsertRow r (upsertRows rows (upsertRow r s)) = upsertRow r (upsertRows rows s) := by
  induction rows generalizing s with
  | nil => exact upsertRow_same_key r r s rfl
  | cons x rows ih =>
    have hx : x.cve_id ∈ s.map Row.cve_id := h x (List.mem_cons_self _ _)
    have hrest : ∀ y ∈ rows, y.cve_id ∈ (upsertRow x s).map Row.cve_id :=
      fun y hy => mem_keys_upsertRow x s _ (h y (List.mem_cons_of_mem _ hy))
    rw [upsertRows_cons, upsertRows_cons]
    by_cases e : r.cve_id = x.cve_id
    · rw [upsertRow_same_key r x s e]
    · rw [upsertRow_comm x r s (fun e' => e e'.symm) hx]
      exact ih _ hrest

/-- Writing the same rows a second time changes nothing. -/
theorem upsertRows_idem (rows : List Row) (s : Store) :
    upsertRows rows (upsertRows rows s) = upsertRows rows s := by
  induction rows using List.reverseRecOn generalizing s with
  | nil => rfl
  | append_singleton rows r ih =>
    have e1 : ∀ t, upsertRows (rows ++ [r]) t = upsertRow r (upsertRows rows t) := by
      intro t
      rw [upsertRows_append]
      rfl
    rw [e1, e1]
    rw [upsertRow_absorb r rows (upsertRows rows s) (keys_subset_upsertRows rows s)]
    rw [ih]

theorem findById_upsertRow (id : String) (r : Row) (s : Store) :
    findById id (upsertRow r s) = if r.cve_id = some id then some r else findById id s := by
  induction s with
  | nil => by_cases h : r.cve_id = some id <;> simp [upsertRow, findById, h]
  | cons x xs ih =>
    unfold findById at ih ⊢
    by_cases hx : x.cve_id = r.cve_id
    · by_cases h : r.cve_id = some id
      · simp [upsertRow, hx, h]
      · simp [upsertRow, hx, h]
    · by_cases hxi : x.cve_id = some id
      · have h : ¬ r.cve_id = some id := fun e => hx (hxi.trans e.symm)
        have h' : ¬ some id = r.cve_id := fun e => h e.symm
        simp [upsertRow, hxi, h, h']
      · simp [upsertRow, hx, hxi, ih]

/-- After writing rows, the row found under an id is the last one written with that id. -/
theorem findById_upsertRows (id : String) (rows : List Row) (s : Store) (row : Row)
    (h : (rows.filter (fun r => decide (r.cve_id = some id))).getLast? = some row) :
    findById id (upsertRows rows s) = some row := by
  induction rows using List.reverseRecOn generalizing row with
  | nil => simp at h
  | append_singleton rows r ih =>
    have e1 : upsertRows (rows ++ [r]) s = upsertRow r (upsertRows rows s) := by
      rw [upsertRows_append]
      rfl
    rw [e1, findById_upsertRow]
    by_cases hr : r.cve_id = some id
    · simp [List.filter_append, hr] at h
      subst h
      simp [hr]
    · simp [List.filter_append, hr] at h
      simp only [hr, if_false]
      exact ih row (by simpa using h)

end CveTracker

namespace CveTracker

theorem upsertItems_healthy (page : List RawItem) (st : SyncState) :
    (upsertItems CVE.upsert page st).2.store = upsertRows (writtenRows page) st.store ∧
    (upsertItems CVE.upsert page st).2.fetches = st.fetches ∧
    ∀ id : String,
      (upsertItems CVE.upsert page st).2.upserts.filter (fun r => decide (r.cve_id = some id)) =
        st.upserts.filter (fun r => decide (r.cve_id = some id)) ++
          (writtenRows page).filter (fun r => decide (r.cve_id = some id)) := by
  induction page generalizing st with
  | nil => simp [upsertItems, writtenRows, upsertRows]
  | cons item rest ih =>
    cases hc : item.cve with
    | none =>
      simp only [upsertItems, writtenRows, hc]
      exact ih st
    | some c =>
      cases hid : c.id with
      | none =>
        have hn : (normalize c).cve_id = none := hid
        simp [upsertItems, writtenRows, hc, hid, CVE.upsert, hn, upsertRows]
      | some k =>
        have hn : (normalize c).cve_id = some k := hid
        simp only [upsertItems, writtenRows, hc, hid, CVE.upsert, hn]
        obtain ⟨h1, h2, h3⟩ := ih { st with store := upsertRow (normalize c) st.store,
                                            upserts := st.upserts ++ [normalize c] }
        refine ⟨?_, ?_, ?_⟩
        · rw [h1]; rfl
        · rw [h2]
        · intro id
          rw [h3 id]
          by_cases e : (normalize c).cve_id = some id <;>
            simp [List.filter_append, List.filter_cons, e]

/-- C3: for every table and every page, running the normalise-and-upsert loop over the page
a second time leaves the table as the first run left it, and in that table the row stored
under an id is the last values object the loop wrote for that id (description, score and
`last_modified` together). -/
theorem upsertItems_twice_eq_once (store : Store) (page : List RawItem) :
    (upsertItems CVE.upsert page
        { store := (upsertItems CVE.upsert page
                      { store := store, fetches := [], upserts := [] }).2.store,
          fetches := [], upserts := [] }).2.store =
      (upsertItems CVE.upsert page { store := store, fetches := [], upserts := [] }).2.store ∧
    ∀ (id : String) (row : Row),
      ((upsertItems CVE.upsert page
          { store := store, fetches := [], upserts := [] }).2.upserts.filter
            (fun r => decide (r.cve_id = some id))).getLast? = some row →
      findById id
        (upsertItems CVE.upsert page { store := store, fetches := [], upserts := [] }).2.store =
          some row := by
  refine ⟨?_, ?_⟩
  · rw [(upsertItems_healthy page _).1, (upsertItems_healthy page _).1]
    exact upsertRows_idem _ _
  · intro id row h
    rw [(upsertItems_healthy page _).2.2 id] at h
    rw [(upsertItems_healthy page _).1]
    exact findById_upsertRows id _ _ row (by simpa using h)

end CveTracker

namespace CveTracker

/-! ## The pagination loop -/

theorem upsertItems_fetches (upsert : Store → Row → Option Store) (page : List RawItem)
    (st : SyncState) : (upsertItems upsert page st).2.fetches = st.fetches := by
  induction page generalizing st with
  | nil => rfl
  | cons item rest ih =>
    cases hc : item.cve with
    | none => simp only [upsertItems, hc]; exact ih st
    | some c =>
      cases hu : upsert st.store (normalize c) with
      | none => simp [upsertItems, hc, hu]
      | some s' => simp only [upsertItems, hc, hu]; rw [ih]

/-- The end of the loop and the table it leaves depend on the table it starts from, not on
the logs. -/
theorem upsertItems_store_irrel (upsert : Store → Row → Option Store) (page : List RawItem)
    (st st' : SyncState) (h : st.store = st'.store) :
    (upsertItems upsert page st).1 = (upsertItems upsert page st').1 ∧
    (upsertItems upsert page st).2.store = (upsertItems upsert page st').2.store := by
  induction page generalizing st st' with
  | nil => exact ⟨rfl, h⟩
  | cons item rest ih =>
    cases hc : item.cve with
    | none => simp only [upsertItems, hc]; exact ih st st' h
    | some c =>
      cases hu : upsert st.store (normalize c) with
      | none =>
        have hu' : upsert st'.store (normalize c) = none := by rw [← h]; exact hu
        simp [upsertItems, hc, hu, hu', h]
      | some s' =>
        have hu' : upsert st'.store (normalize c) = some s' := by rw [← h]; exact hu
        simp only [upsertItems, hc, hu, hu']
        exact ih _ _ rfl

theorem upsertItems_completed (upsert : Store → Row → Option Store) (page : List RawItem)
    (st : SyncState) (h : UpsertsSucceed upsert page) :
    (upsertItems upsert page st).1 = PageEnd.completed := by
  induction page generalizing st with
  | nil => rfl
  | cons item rest ih =>
    have hrest : UpsertsSucceed upsert rest :=
      fun it hit c hc s => h it (List.mem_cons_of_mem _ hit) c hc s
    cases hc : item.cve with
    | none => simp only [upsertItems, hc]; exact ih st hrest
    | some c =>
      have hs := h item (List.mem_cons_self _ _) c hc st.store
      cases hu : upsert st.store (normalize c) with
      | none => simp [hu] at hs
      | some s' => simp only [upsertItems, hc, hu]; exact ih _ hrest

/-- One iteration of the loop on a fetch that delivers a page. -/
theorem syncLoop_page (feed : Nat → FetchResult) (upsert : Store → Row → Option Store)
    (fuel start : Nat) (st : SyncState) (items : List RawItem)
    (h : (feed start).page = some items) :
    syncLoop feed upsert (fuel + 1) start st =
      match upsertItems upsert items { st with fetches := st.fetches ++ [start] } with
      | (PageEnd.threw, st2) => (RunEnd.caught, st2)
      | (PageEnd.completed, st2) =>
        if items.length < resultsPerPage then (RunEnd.exhausted, st2)
        else syncLoop feed upsert fuel (start + resultsPerPage) st2 := by
  cases hf : feed start with
  | rejected => simp [hf, FetchResult.page] at h
  | response status data =>
    by_cases hs : status = 200
    · cases data with
      | none => simp [hf, FetchResult.page, hs] at h
      | some d =>
        simp only [hf, FetchResult.page, hs, ne_eq, not_true_eq_false, if_false,
          Option.some.injEq] at h
        subst h
        simp only [syncLoop, hf, hs, ne_eq, not_true_eq_false, if_false]
    · simp [hf, FetchResult.page, hs] at h

/-- One iteration of the loop on a fetch that fails: the run ends there. -/
theorem syncLoop_no_page (feed : Nat → FetchResult) (upsert : Store → Row → Option Store)
    (fuel start : Nat) (st : SyncState) (h : (feed start).page = none) :
    ((syncLoop feed upsert (fuel + 1) start st).1 = RunEnd.caught ∨
      (syncLoop feed upsert (fuel + 1) start st).1 = RunEnd.badStatus) ∧
    (syncLoop feed upsert (fuel + 1) start st).2 =
      { st with fetches := st.fetches ++ [start] } := by
  cases hf : feed start with
  | rejected => simp [syncLoop, hf]
  | response status data =>
    by_cases hs : status = 200
    · cases data with
      | none => simp [syncLoop, hf, hs]
      | some d => simp [hf, FetchResult.page, hs] at h
    · simp [syncLoop, hf, hs]

/-- After `k` full pages whose upserts all succeed the loop stands at `startIndex + 100 * k`
with the pages written in order and one fetch logged per page. -/
theorem syncLoop_full_pages (feed : Nat → FetchResult) (upsert : Store → Row → Option Store)
    (k fuel start : Nat) (st : SyncState)
    (hfull : ∀ i < k, ∃ items, (feed (start + resultsPerPage * i)).page = some items ∧
      items.length = resultsPerPage ∧ UpsertsSucceed upsert items) :
    ∃ st', syncLoop feed upsert (fuel + k) start st =
        syncLoop feed upsert fuel (start + resultsPerPage * k) st' ∧
      st'.store = applyPages upsert (feedPages feed start k) st.store ∧
      st'.fetches = st.fetches ++ (List.range k).map (fun i => start + resultsPerPage * i) := by
  induction k generalizing start st with
  | zero => exact ⟨st, by simp, by simp [applyPages, feedPages], by simp⟩
  | succ k ih =>
    obtain ⟨items, hpage, hlen, hok⟩ := hfull 0 (Nat.succ_pos k)
    simp only [Nat.mul_zero, Nat.add_zero] at hpage
    have hstep := syncLoop_page feed upsert (fuel + k) start st items hpage
    have hdone := upsertItems_completed upsert items
      { st with fetches := st.fetches ++ [start] } hok
    have hfet := upsertItems_fetches upsert items { st with fetches := st.fetches ++ [start] }
    have hsto := (upsertItems_store_irrel upsert items
      { st with fetches := st.fetches ++ [start] }
      { store := st.store, fetches := [], upserts := [] } rfl).2
    generalize upsertItems upsert items { st with fetches := st.fetches ++ [start] } = res
      at hstep hdone hfet hsto
    obtain ⟨e, st2⟩ := res
    simp only at hdone hfet hsto
    subst hdone
    simp only [hlen, lt_irrefl, if_false] at hstep
    have hfull' : ∀ i < k, ∃ items, (feed (start + resultsPerPage + resultsPerPage * i)).page =
        some items ∧ items.length = resultsPerPage ∧ UpsertsSucceed upsert items := by
      intro i hi
      have := hfull (i + 1) (Nat.succ_lt_succ hi)
      rwa [Nat.mul_succ, Nat.add_comm (resultsPerPage * i), ← Nat.add_assoc] at this
    obtain ⟨st', h1, h2, h3⟩ := ih (start + resultsPerPage) st2 hfull'
    refine ⟨st', ?_, ?_, ?_⟩
    · rw [show fuel + (k + 1) = fuel + k + 1 from rfl, hstep, h1]
      congr 1
      rw [Nat.mul_succ]; omega
    · rw [h2, hsto]
      simp only [applyPages, feedPages, List.range_succ_eq_map, List.map_cons, List.map_map,
        List.foldl_cons, Nat.mul_zero, Nat.add_zero, hpage, Option.getD_some]
      congr 2
      funext i
      simp only [Function.comp_apply, Nat.mul_succ]
      congr 3
      omega
    · rw [h3, hfet]
      simp only [List.range_succ_eq_map, List.map_cons, List.map_map, Nat.mul_zero,
        Nat.add_zero, List.append_assoc, List.singleton_append]
      congr 2
      apply List.map_congr_left
      intro i _
      simp only [Function.comp_apply, Nat.mul_succ]
      omega

end CveTracker

namespace CveTracker

/-- C1: for every `k` and every feed that answers `k` full pages (exactly 100 items each)
and then a page of fewer than 100 items, with no fetch failing and no upsert rejected,
`fetchAndStoreCVEData` ends on the short page after exactly `k + 1` fetch calls, made with
`startIndex` 0, 100, ..., 100 * k in that order. -/
theorem fetch_calls_full_then_short (feed : Nat → FetchResult)
    (upsert : Store → Row → Option Store) (k fuel : Nat) (store : Store)
    (hfull : ∀ i < k, ∃ items, (feed (100 * i)).page = some items ∧ items.length = 100 ∧
      UpsertsSucceed upsert items)
    (hshort : ∃ items, (feed (100 * k)).page = some items ∧ items.length < 100 ∧
      UpsertsSucceed upsert items)
    (hfuel : k < fuel) :
    (fetchAndStoreCVEData feed upsert fuel store).1 = RunEnd.exhausted ∧
    (fetchAndStoreCVEData feed upsert fuel store).2.fetches =
      (List.range (k + 1)).map (fun i => 100 * i) ∧
    (fetchAndStoreCVEData feed upsert fuel store).2.fetches.length = k + 1 := by
  obtain ⟨rest, hrest⟩ : ∃ rest, fuel = rest + 1 + k := ⟨fuel - 1 - k, by omega⟩
  subst hrest
  obtain ⟨st', h1, -, h3⟩ := syncLoop_full_pages feed upsert k (rest + 1) 0
    { store := store, fetches := [], upserts := [] }
    (by intro i hi; simpa [resultsPerPage] using hfull i hi)
  obtain ⟨items, hpage, hlen, hok⟩ := hshort
  have hpage' : (feed (0 + resultsPerPage * k)).page = some items := by
    simpa [resultsPerPage] using hpage
  have hstep := syncLoop_page feed upsert rest (0 + resultsPerPage * k) st' items hpage'
  have hdone := upsertItems_completed upsert items
    { st' with fetches := st'.fetches ++ [0 + resultsPerPage * k] } hok
  have hfet := upsertItems_fetches upsert items
    { st' with fetches := st'.fetches ++ [0 + resultsPerPage * k] }
  generalize upsertItems upsert items
    { st' with fetches := st'.fetches ++ [0 + resultsPerPage * k] } = res at hstep hdone hfet
  obtain ⟨e, st2⟩ := res
  simp only at hdone hfet
  subst hdone
  have hlt : items.length < resultsPerPage := by simpa [resultsPerPage] using hlen
  simp only [hlt, if_true] at hstep
  have hrun : fetchAndStoreCVEData feed upsert (rest + 1 + k) store = (RunEnd.exhausted, st2) := by
    unfold fetchAndStoreCVEData
    rw [h1, hstep]
  have hf : st2.fetches = (List.range (k + 1)).map (fun i => 100 * i) := by
    rw [hfet, h3]
    simp [List.range_succ, resultsPerPage]
  rw [hrun]
  exact ⟨rfl, hf, by simp [hf]⟩

theorem upsertsSucceed_replicate_itemOf (n : Nat) (id : String) :
    UpsertsSucceed CVE.upsert (List.replicate n (itemOf id)) := by
  intro item hitem c hc s
  have e : item = itemOf id := List.eq_of_mem_replicate hitem
  subst e
  simp only [itemOf, Option.some.injEq] at hc
  subst hc
  rfl

/-- The feed of two pages of 100 items and one of 40 is fetched three times, with
`startIndex` 0, 100 and 200. -/
theorem fetch_calls_full_then_short_witness :
    (fetchAndStoreCVEData feedScenarioB CVE.upsert 3 []).1 = RunEnd.exhausted ∧
    (fetchAndStoreCVEData feedScenarioB CVE.upsert 3 []).2.fetches = [0, 100, 200] ∧
    (fetchAndStoreCVEData feedScenarioB CVE.upsert 3 []).2.fetches.length = 3 :=
  fetch_calls_full_then_short feedScenarioB CVE.upsert 2 3 []
    (fun i hi => ⟨List.replicate 100 (itemOf "CVE-1"), by
      have h : i = 0 ∨ i = 1 := by omega
      rcases h with h | h <;> subst h <;> decide,
      List.length_replicate _ _, upsertsSucceed_replicate_itemOf _ _⟩)
    ⟨List.replicate 40 (itemOf "CVE-2"), by decide, by decide,
      upsertsSucceed_replicate_itemOf _ _⟩
    (by decide)

theorem upsertItems_append (upsert : Store → Row → Option Store) (pre post : List RawItem)
    (st st' : SyncState) (h : upsertItems upsert pre st = (PageEnd.completed, st')) :
    upsertItems upsert (pre ++ post) st = upsertItems upsert post st' := by
  induction pre generalizing st with
  | nil =>
    simp only [upsertItems, Prod.mk.injEq, true_and] at h
    subst h
    rfl
  | cons item rest ih =>
    cases hc : item.cve with
    | none =>
      simp only [upsertItems, hc, List.cons_append] at h ⊢
      exact ih st h
    | some c =>
      cases hu : upsert st.store (normalize c) with
      | none => simp [upsertItems, hc, hu] at h
      | some s' =>
        simp only [upsertItems, hc, hu, List.cons_append] at h ⊢
        exact ih _ h

/-- C5 as the code has it: when the `CVE.upsert` call for an item of a fetched page is
rejected, the run ends in the `catch` at that item. The items before it stay written, the
rejected call is the last `CVE.upsert` call of the run, so no later item of the page is
written, and the fetch of that page is the last fetch of the run. -/
theorem upsert_failure_ends_run (feed : Nat → FetchResult)
    (upsert : Store → Row → Option Store) (fuel start : Nat) (st st' : SyncState)
    (pre post : List RawItem) (c : CveData)
    (hpage : (feed start).page = some (pre ++ { cve := some c } :: post))
    (hpre : upsertItems upsert pre { st with fetches := st.fetches ++ [start] } =
      (PageEnd.completed, st'))
    (hfail : upsert st'.store (normalize c) = none) :
    syncLoop feed upsert (fuel + 1) start st =
      (RunEnd.caught, { store := st'.store, fetches := st.fetches ++ [start],
                        upserts := st'.upserts ++ [normalize c] }) := by
  rw [syncLoop_page feed upsert fuel start st _ hpage, upsertItems_append upsert pre _ _ st' hpre]
  have hf : st'.fetches = st.fetches ++ [start] := by
    have := upsertItems_fetches upsert pre { st with fetches := st.fetches ++ [start] }
    rw [hpre] at this
    exact this
  simp [upsertItems, hfail, hf]

/-- A run on a database that rejects the write of `"CVE-BAD"`: the page is
`[CVE-1, CVE-BAD, CVE-2]`, the run ends at the rejected call with `CVE-1` written and
`CVE-2` never passed to `CVE.upsert`. -/
theorem upsert_failure_ends_run_witness :
    syncLoop (fun _ => okResponse [itemOf "CVE-1", itemOf "CVE-BAD", itemOf "CVE-2"])
        (faultyUpsert "CVE-BAD") 5 0 { store := [], fetches := [], upserts := [] } =
      (RunEnd.caught, { store := [normalize (cveOf "CVE-1")], fetches := [0],
                        upserts := [normalize (cveOf "CVE-1"), normalize (cveOf "CVE-BAD")] }) :=
  upsert_failure_ends_run
    (fun _ => okResponse [itemOf "CVE-1", itemOf "CVE-BAD", itemOf "CVE-2"])
    (faultyUpsert "CVE-BAD") 4 0 { store := [], fetches := [], upserts := [] }
    { store := [normalize (cveOf "CVE-1")], fetches := [0],
      upserts := [normalize (cveOf "CVE-1")] }
    [itemOf "CVE-1"] [itemOf "CVE-2"] (cveOf "CVE-BAD") (by decide) (by decide) (by decide)

/-- C5 fails on the code: on a database that rejects the write of `"CVE-BAD"`, the run over
`feedBadFirst` stops at that item: none of the 99 items after it on the page is passed to
`CVE.upsert`, the table stays empty, and the second page is never fetched, whereas the same
run on a healthy database fetches both pages. -/
theorem upsert_failure_not_tolerated :
    fetchAndStoreCVEData feedBadFirst (faultyUpsert "CVE-BAD") 5 [] =
      (RunEnd.caught, { store := [], fetches := [0],
                        upserts := [normalize (cveOf "CVE-BAD")] }) ∧
    (fetchAndStoreCVEData feedBadFirst CVE.upsert 5 []).2.fetches = [0, 100] ∧
    findById "CVE-1" (fetchAndStoreCVEData feedBadFirst CVE.upsert 5 []).2.store =
      some (normalize (cveOf "CVE-1")) := by
  decide

end CveTracker

namespace CveTracker

/-- C6 as the code has it: for every `n` and every feed whose first `n` pages are full and
fetched successfully, with no upsert rejected, and whose next fetch fails (the request is
rejected, the status is not 200, or the response has no body), `fetchAndStoreCVEData` makes
exactly `n + 1` fetch calls, with `startIndex` 0, 100, ..., 100 * n, ends there, and leaves
the table obtained by running the loop over pages 0 .. n-1 in order. -/
theorem fetch_failure_keeps_written_pages (feed : Nat → FetchResult)
    (upsert : Store → Row → Option Store) (n fuel : Nat) (store : Store)
    (hfull : ∀ i < n, ∃ items, (feed (100 * i)).page = some items ∧ items.length = 100 ∧
      UpsertsSucceed upsert items)
    (hfail : (feed (100 * n)).page = none)
    (hfuel : n < fuel) :
    ((fetchAndStoreCVEData feed upsert fuel store).1 = RunEnd.caught ∨
      (fetchAndStoreCVEData feed upsert fuel store).1 = RunEnd.badStatus) ∧
    (fetchAndStoreCVEData feed upsert fuel store).2.fetches =
      (List.range (n + 1)).map (fun i => 100 * i) ∧
    (fetchAndStoreCVEData feed upsert fuel store).2.fetches.length = n + 1 ∧
    (fetchAndStoreCVEData feed upsert fuel store).2.store =
      applyPages upsert (feedPages feed 0 n) store := by
  obtain ⟨rest, hrest⟩ : ∃ rest, fuel = rest + 1 + n := ⟨fuel - 1 - n, by omega⟩
  subst hrest
  obtain ⟨st', h1, h2, h3⟩ := syncLoop_full_pages feed upsert n (rest + 1) 0
    { store := store, fetches := [], upserts := [] }
    (by intro i hi; simpa [resultsPerPage] using hfull i hi)
  have hfail' : (feed (0 + resultsPerPage * n)).page = none := by
    simpa [resultsPerPage] using hfail
  obtain ⟨hend, hst⟩ := syncLoop_no_page feed upsert rest (0 + resultsPerPage * n) st' hfail'
  have hrun : fetchAndStoreCVEData feed upsert (rest + 1 + n) store =
      syncLoop feed upsert (rest + 1) (0 + resultsPerPage * n) st' := by
    unfold fetchAndStoreCVEData
    rw [h1]
  have hf : (fetchAndStoreCVEData feed upsert (rest + 1 + n) store).2.fetches =
      (List.range (n + 1)).map (fun i => 100 * i) := by
    rw [hrun, hst]
    simp [h3, List.range_succ, resultsPerPage]
  refine ⟨?_, hf, by simp [hf], ?_⟩
  · rw [hrun]; exact hend
  · rw [hrun, hst]; exact h2

/-- One full page and then a rejected fetch: two fetch calls, and the page stays written. -/
theorem fetch_failure_keeps_written_pages_witness :
    ((fetchAndStoreCVEData feedOneThenDown CVE.upsert 4 []).1 = RunEnd.caught ∨
      (fetchAndStoreCVEData feedOneThenDown CVE.upsert 4 []).1 = RunEnd.badStatus) ∧
    (fetchAndStoreCVEData feedOneThenDown CVE.upsert 4 []).2.fetches = [0, 100] ∧
    (fetchAndStoreCVEData feedOneThenDown CVE.upsert 4 []).2.fetches.length = 2 ∧
    (fetchAndStoreCVEData feedOneThenDown CVE.upsert 4 []).2.store =
      applyPages CVE.upsert (feedPages feedOneThenDown 0 1) [] :=
  fetch_failure_keeps_written_pages feedOneThenDown CVE.upsert 1 4 []
    (fun i hi => ⟨List.replicate 100 (itemOf "CVE-1"), by
      have h : i = 0 := by omega
      subst h; decide,
      List.length_replicate _ _, upsertsSucceed_replicate_itemOf _ _⟩)
    (by decide) (by decide)

/-- C6 fails on the code when an upsert is rejected: `feedBadThenDown` delivers one full page
and its next fetch fails, yet on a database that rejects the write of `"CVE-BAD"` the run
makes one fetch call, not two. -/
theorem fetch_count_with_rejected_upsert :
    (∃ items, (feedBadThenDown 0).page = some items ∧ items.length = 100) ∧
    (feedBadThenDown 100).page = none ∧
    (fetchAndStoreCVEData feedBadThenDown (faultyUpsert "CVE-BAD") 5 []).2.fetches = [0] ∧
    (fetchAndStoreCVEData feedBadThenDown (faultyUpsert "CVE-BAD") 5 []).2.fetches.length ≠ 2 := by
  refine ⟨⟨itemOf "CVE-BAD" :: List.replicate 99 (itemOf "CVE-1"), by decide, by decide⟩,
    by decide, by decide, by decide⟩

end CveTracker

namespace CveTracker

/-! ## The read query -/

theorem char_eq_of_toNat_eq (a b : Char) (h : a.toNat = b.toNat) : a = b := by
  rw [← Char.ofNat_toNat a, ← Char.ofNat_toNat b, h]

/-- A pattern character below `A` that is not `%` matches exactly itself. -/
theorem asciiLower_eq_iff (p c : Char) (hp : p.toNat < 65) :
    asciiLower p = asciiLower c ↔ p = c := by
  constructor
  · intro h
    apply char_eq_of_toNat_eq
    unfold asciiLower at h
    split at h <;> split at h <;> omega
  · intro h
    rw [h]

theorem any_tails_isEmpty (s : List Char) : s.tails.any (sqlLike []) = true := by
  induction s with
  | nil => rfl
  | cons c cs ih => simp [List.tails, sqlLike, ih]

theorem sqlLike_literal_cons (p : Char) (ps s : List Char) (hp : p.toNat < 65)
    (hne : p.toNat ≠ 37) :
    sqlLike (p :: ps) s =
      match s with
      | [] => false
      | c :: cs => decide (p = c) && sqlLike ps cs := by
  have h1 : p ≠ '%' := fun e => hne (by rw [e]; rfl)
  have h2 : p ≠ '_' := fun e => by rw [e] at hp; revert hp; decide
  cases s with
  | nil => simp [sqlLike, h1]
  | cons c cs =>
    simp only [sqlLike, h1, if_false, h2, decide_False, Bool.false_or]
    congr 1
    simp only [asciiLower_eq_iff p c hp]

/-- For a pattern made of digits, a dash and `%`, `LIKE` is "starts with the digits and the
dash". -/
theorem sqlLike_digits_dash (ds s : List Char) (h : ∀ c ∈ ds, 48 ≤ c.toNat ∧ c.toNat ≤ 57) :
    sqlLike (ds ++ "-%".toList) s = (ds ++ "-".toList).isPrefixOf s := by
  induction ds generalizing s with
  | nil =>
    have e : ([] : List Char) ++ "-%".toList = '-' :: ['%'] := rfl
    rw [e, sqlLike_literal_cons '-' ['%'] s (by decide) (by decide)]
    cases s with
    | nil => rfl
    | cons c cs =>
      have e2 : sqlLike ['%'] cs = true := by
        simp only [sqlLike, if_true]
        exact any_tails_isEmpty cs
      have e3 : ([] : List Char) ++ "-".toList = ['-'] := rfl
      by_cases e : '-' = c
      · subst e
        simp [e2, e3, List.isPrefixOf]
      · simp [e, e2, e3, List.isPrefixOf]
  | cons d ds ih =>
    have hd := h d (List.mem_cons_self _ _)
    rw [List.cons_append, sqlLike_literal_cons d _ s (by omega) (by omega)]
    cases s with
    | nil => rfl
    | cons c cs =>
      simp only [List.cons_append, List.isPrefixOf]
      rw [ih cs (fun c hc => h c (List.mem_cons_of_mem _ hc))]
      by_cases e : d = c <;> simp [e]

end CveTracker

namespace CveTracker

theorem like_year_holds (y : String) (lm : Option String)
    (h : ∀ c ∈ y.toList, 48 ≤ c.toNat ∧ c.toNat ≤ 57) :
    (LastModifiedCond.like (y ++ "-%")).holds lm =
      match lm with
      | some s => (y ++ "-").toList.isPrefixOf s.toList
      | none => false := by
  cases lm with
  | none => rfl
  | some s =>
    simp only [LastModifiedCond.holds]
    have e1 : (y ++ "-%").toList = y.toList ++ "-%".toList := String.data_append y "-%"
    have e2 : (y ++ "-").toList = y.toList ++ "-".toList := String.data_append y "-"
    rw [e1, e2]
    exact sqlLike_digits_dash y.toList s.toList h

theorem whereClause_selects (clock : Int → Option String) (q : Query) (w : WhereClause)
    (hw : whereClause clock q = some w) (hy : q.yearIsDigits) (r : Row) :
    w.selects r = (q.idMatches r && q.scoreMatches r && q.lastModifiedMatches clock r) := by
  unfold whereClause at hw
  unfold Query.idMatches Query.scoreMatches Query.lastModifiedMatches Query.daysMatches
    Query.yearMatches
  have hlike : ∀ y, truthy q.year = some y →
      (LastModifiedCond.like (y ++ "-%")).holds r.last_modified =
        match r.last_modified with
        | some s => (y ++ "-").toList.isPrefixOf s.toList
        | none => false :=
    fun y e => like_year_holds y r.last_modified (hy y e)
  cases h4 : truthy q.days with
  | none =>
    simp only [h4, Option.some.injEq] at hw
    subst hw
    cases h2 : truthy q.year with
    | none =>
      cases h1 : truthy q.cve_id <;> cases h3 : truthy q.score <;>
        simp [WhereClause.selects, h1, h2, h3]
    | some y =>
      have hl := hlike y h2
      cases h1 : truthy q.cve_id <;> cases h3 : truthy q.score <;>
        simp only [WhereClause.selects, h1, h2, h3, hl, Bool.true_and, Bool.and_true,
          Bool.and_comm, Bool.and_left_comm, Bool.and_assoc]
  | some d =>
    simp only [h4] at hw
    cases h5 : parseInt d with
    | none => simp [h5] at hw
    | some n =>
      cases h6 : clock n with
      | none => simp [h5, h6] at hw
      | some bound =>
        simp only [h5, h6, Option.some.injEq] at hw
        subst hw
        cases h1 : truthy q.cve_id <;> cases h2 : truthy q.year <;>
          cases h3 : truthy q.score <;> cases hl : r.last_modified <;>
          simp [WhereClause.selects, LastModifiedCond.holds, h1, h2, h3, h4, h5, h6, hl,
            Bool.and_comm, Bool.and_left_comm]

end CveTracker

namespace CveTracker

/-- Every pair of filters other than `year` with `days` is combined by AND: for every table,
and every request in which `year` and `days` are not both given, whose where-clause is built
(a `days` that is given parses to a date) and whose `year`, when given, is written in digits,
`findAll` selects exactly the intersection of the per-filter subsets (id equals `cve_id`;
`last_modified` starts with the year and a dash; score at least the parsed `score`;
`last_modified` at least the ISO date `days` days ago as text), a filter counting as given
when its parameter is a non-empty string; with no filter given every row is selected. -/
theorem findAll_selects_filter_conjunction (clock : Int → Option String) (q : Query)
    (w : WhereClause) (store : Store)
    (hw : whereClause clock q = some w) (hy : q.yearIsDigits)
    (hnot : truthy q.year = none ∨ truthy q.days = none) :
    CVE.findAll store w = store.filter (q.allMatch clock) ∧
    (truthy q.cve_id = none → truthy q.year = none → truthy q.score = none →
      truthy q.days = none → CVE.findAll store w = store) := by
  have key : w.selects = fun r => q.idMatches r && q.scoreMatches r &&
      q.lastModifiedMatches clock r :=
    funext (whereClause_selects clock q w hw hy)
  refine ⟨?_, ?_⟩
  · unfold CVE.findAll
    rw [key]
    congr 1
    funext r
    rcases hnot with h | h
    · cases h4 : truthy q.days <;>
        simp [Query.allMatch, Query.lastModifiedMatches, Query.yearMatches,
          Query.daysMatches, h, h4, Bool.and_assoc]
    · simp [Query.allMatch, Query.lastModifiedMatches, Query.daysMatches, h,
        Bool.and_assoc, Bool.and_comm, Bool.and_left_comm]
  · intro h1 h2 h3 h4
    unfold CVE.findAll
    rw [key]
    simp [Query.idMatches, Query.scoreMatches, Query.lastModifiedMatches, Query.yearMatches,
      h1, h2, h3, h4]

/-- The request `year=2024` on a table with `last_modified` values `2024-01-01` and
`2023-05-05` selects the first row only. -/
theorem findAll_selects_filter_conjunction_witness :
    whereClause clockMay2024 queryYear2024 =
      some { cve_id := none, last_modified := some (LastModifiedCond.like "2024-%"),
             score := none } ∧
    CVE.findAll [rowOf "CVE-1" none "2024-01-01", rowOf "CVE-2" none "2023-05-05"]
        { cve_id := none, last_modified := some (LastModifiedCond.like "2024-%"),
          score := none } =
      [rowOf "CVE-1" none "2024-01-01"] := by
  have h := (findAll_selects_filter_conjunction clockMay2024 queryYear2024
    { cve_id := none, last_modified := some (LastModifiedCond.like "2024-%"), score := none }
    [rowOf "CVE-1" none "2024-01-01", rowOf "CVE-2" none "2023-05-05"]
    (by decide)
    (by
      intro y hy c hc
      have e : y = "2024" := by
        have : truthy queryYear2024.year = some "2024" := by decide
        rw [this] at hy
        exact (Option.some.inj hy).symm
      subst e
      have hc' : c ∈ ['2', '0', '2', '4'] := hc
      simp only [List.mem_cons, List.mem_singleton, List.not_mem_nil, or_false] at hc'
      rcases hc' with h | h | h | h <;> subst h <;> decide)
    (Or.inr (by decide))).1
  refine ⟨by decide, ?_⟩
  rw [h]
  decide

/-- C2: when `year` and `days` are both given the year condition is lost. For
`year=2023&days=30` the assignment of line 100 replaces the `last_modified` condition that
line 92 built, so the clause holds only the `days` bound and selects a row whose
`last_modified` is `2024-06-01`, which does not start with `2023-`; the intersection of the
per-filter subsets, which the claim states, is empty. -/
theorem year_filter_dropped_when_days_given :
    whereClause clockMay2024 queryYearAndDays =
      some { cve_id := none, last_modified := some (LastModifiedCond.gte "2024-05-01"),
             score := none } ∧
    (whereClause clockMay2024 queryYearAndDays).map
        (CVE.findAll [rowOf "CVE-1" none "2024-06-01"]) =
      some [rowOf "CVE-1" none "2024-06-01"] ∧
    queryYearAndDays.yearMatches (rowOf "CVE-1" none "2024-06-01") = false ∧
    [rowOf "CVE-1" none "2024-06-01"].filter (queryYearAndDays.allMatch clockMay2024) = [] := by
  decide

/-- C9 as the code has it: a `score` that is given is never validated. For every request
with a non-empty `score`, well-formed or not, whose where-clause is built, the clause holds
the bound `parseFloat(score)` as it is (`NaN` when the text has no numeric prefix), the store
is queried with that clause, and the reply is the rows with status 200, or status 500 when
the store read fails: never a client error. -/
theorem score_is_parsed_not_validated (clock : Int → Option String)
    (findAll : WhereClause → Option (List Row)) (q : Query) (sc : String) (w : WhereClause)
    (hsc : truthy q.score = some sc) (hw : whereClause clock q = some w) :
    w.score = some (parseFloat sc) ∧
    getCves clock findAll q =
      (match findAll w with
        | some cves => Reply.json cves
        | none => Reply.internalServerError) ∧
    ((getCves clock findAll q).status = some 200 ∨
      (getCves clock findAll q).status = some 500) := by
  have hget : getCves clock findAll q =
      (match findAll w with
        | some cves => Reply.json cves
        | none => Reply.internalServerError) := by
    simp [getCves, hw]
  refine ⟨?_, hget, ?_⟩
  · unfold whereClause at hw
    cases h4 : truthy q.days with
    | none =>
      simp only [h4, hsc, Option.some.injEq] at hw
      subst hw
      rfl
    | some d =>
      simp only [h4, hsc] at hw
      cases h5 : parseInt d with
      | none => simp [h5] at hw
      | some n =>
        cases h6 : clock n with
        | none => simp [h5, h6] at hw
        | some bound =>
          simp only [h5, h6, Option.some.injEq] at hw
          subst hw
          rfl
  · rw [hget]
    cases findAll w with
    | none => exact Or.inr rfl
    | some cves => exact Or.inl rfl

/-- The request `score=abc` on a healthy table: the clause holds the bound `NaN`, which is
what `parseFloat` gives for `abc`, and the reply has status 200. -/
theorem score_is_parsed_not_validated_witness :
    parseFloat "abc" = JSNum.nan ∧
    (some JSNum.nan : Option JSNum) = some (parseFloat "abc") ∧
    getCves clockMay2024 (healthyFindAll [rowOf "CVE-1" none "2024-06-01"]) queryScoreAbc =
      (match healthyFindAll [rowOf "CVE-1" none "2024-06-01"]
          { cve_id := none, last_modified := none, score := some JSNum.nan } with
        | some cves => Reply.json cves
        | none => Reply.internalServerError) ∧
    ((getCves clockMay2024 (healthyFindAll [rowOf "CVE-1" none "2024-06-01"])
        queryScoreAbc).status = some 200 ∨
      (getCves clockMay2024 (healthyFindAll [rowOf "CVE-1" none "2024-06-01"])
        queryScoreAbc).status = some 500) :=
  ⟨by decide,
    score_is_parsed_not_validated clockMay2024
      (healthyFindAll [rowOf "CVE-1" none "2024-06-01"]) queryScoreAbc "abc"
      { cve_id := none, last_modified := none, score := some JSNum.nan }
      (by decide) (by decide)⟩

/-- C9 fails on the code: for `GET /cves?score=abc` the handler builds the where-clause with
the score bound `NaN`, queries the store with it and replies with status 200. -/
theorem malformed_score_gets_status_200 :
    parseFloat "abc" = JSNum.nan ∧
    whereClause clockMay2024 queryScoreAbc =
      some { cve_id := none, last_modified := none, score := some JSNum.nan } ∧
    (getCves clockMay2024 (healthyFindAll [rowOf "CVE-1" none "2024-06-01"])
      queryScoreAbc).status = some 200 := by
  decide

/-! ## The triggers -/

theorem exec_started (events : List Event) (s : Runs) :
    (s.exec events).started = s.started + events.countP Event.isTrigger := by
  induction events generalizing s with
  | nil => rfl
  | cons e es ih =>
    have hstep : (s.exec (e :: es)) = (s.step e).exec es := rfl
    rw [hstep, ih]
    cases e
    · simp [Runs.step, Event.isTrigger]; omega
    · simp [Runs.step, Event.isTrigger]; omega
    · simp only [Runs.step]
      split <;> simp [Event.isTrigger]
    · simp [Runs.step, Event.isTrigger]

/-- C10 as the code has it: no trigger is ever dropped. After every sequence of events the
number of runs started equals the number of triggers so far, and a trigger arriving in that
state, whether from `startServer` or from the cron schedule, adds one more run in progress
whatever the number of runs already in progress. -/
theorem every_trigger_starts_a_run (events : List Event) :
    (Runs.initial.exec events).started = events.countP Event.isTrigger ∧
    ((Runs.initial.exec events).step Event.cronTick).active.length =
      (Runs.initial.exec events).active.length + 1 ∧
    ((Runs.initial.exec events).step Event.startup).active.length =
      (Runs.initial.exec events).active.length + 1 := by
  refine ⟨?_, ?_, ?_⟩
  · rw [exec_started]
    simp [Runs.initial]
  · simp [Runs.step]
  · simp [Runs.step]

/-- C10 fails on the code: after the startup trigger and a cron tick that arrives before the
first run has returned, two runs are in progress, and their table writes interleave. -/
theorem two_runs_active :
    (Runs.initial.exec [Event.startup, Event.cronTick]).active = [0, 1] ∧
    (Runs.initial.exec [Event.startup, Event.cronTick]).active.length = 2 ∧
    (Runs.initial.exec [Event.startup, Event.cronTick, Event.runUpserts 0,
      Event.runUpserts 1, Event.runUpserts 0]).writes = [0, 1, 0] := by
  decide

end CveTracker
